import Mathlib

/-!
Verification development for the rag_learn repository: the blog RAG pipeline
(src/blog_rag/rag.py and src/blog_rag/api.py) and the patient record store
(src/patient_system/db.py). Python strings are modelled as lists of
characters; similarity scores are modelled as rationals, since every claim
about them concerns only their ordering and the 0.5 threshold.
-/

namespace RagLearn

/-- Python strings are modelled as lists of characters. -/
abbrev Str := List Char

/-- A fetched blog document: rendered page text plus its source URL metadata
(rag.py, get_blog_documents). -/
structure Document where
  text : Str
  source_url : Str
deriving DecidableEq, Repr

/-- A chunk produced by the text splitter: its text and the source URL
inherited from the parent document. -/
structure Segment where
  text : Str
  source_url : Str
deriving DecidableEq, Repr

/-- Modelled from the spec: the chunker configured in prepare_vector_store
(rag.py lines 50-58) with chunk_size 1000 and chunk_overlap 200.  The
splitter implementation itself (RecursiveCharacterTextSplitter) is a
third-party dependency absent from src, so the spec's algorithm is used:
slide a window of 1000 characters across the text, advancing by
1000 - 200 = 800 characters each step, until the window no longer covers
unseen text.  The fuel argument only makes the recursion structural so that
the kernel can evaluate the function; `chunkText` supplies `s.length`, which
always suffices (each step consumes 800 characters but only one unit of
fuel), so the fuel-zero branch coincides with the base case whenever
`s.length ≤ 1000 + 800 * fuel`. -/
def chunkFuel : Nat → Str → List Str
  | 0, s => [s]
  | Nat.succ fuel, s =>
      if s.length ≤ 1000 then [s]
      else s.take 1000 :: chunkFuel fuel (s.drop 800)

/-- Chunk a whole text: windows start at positions 0, 800, 1600, .... -/
def chunkText (s : Str) : List Str := chunkFuel s.length s

/-- The chunker applied to one document; every segment inherits the parent
document's source_url. -/
def chunkDocument (d : Document) : List Segment :=
  (chunkText d.text).map (fun c => { text := c, source_url := d.source_url })

/-- split_documents over the fetched corpus: documents are chunked
independently and in input order (no cross-document segments). -/
def splitDocuments (docs : List Document) : List Segment :=
  (docs.map chunkDocument).flatten

/-- Removing each chunk's 200-character overlap with its predecessor and
concatenating: the reconstruction described in the spec's round-trip
property. -/
def dechunk : List Str → Str
  | [] => []
  | c :: rest => c ++ (rest.map (List.drop 200)).flatten

/-- The overlap relation between consecutive chunks: the last 200 characters
of the first chunk are exactly the first 200 characters of the second. -/
def overlapRel (c1 c2 : Str) : Prop :=
  c1.drop 800 = c2.take 200 ∧ (c1.drop 800).length = 200

/-- Pairs as stored by the in-memory vector store once a query has been
scored against every entry: a segment together with its similarity score for
the query.  Scores are modelled as rationals. -/
abbrev Scored := Segment × ℚ

/-- Insert one scored entry into a list already sorted by descending score,
placing it before the first entry whose score does not exceed it (so that,
among equal scores, earlier-inserted entries stay first). -/
def insertDesc (p : Scored) : List Scored → List Scored
  | [] => [p]
  | q :: rest => if q.2 ≤ p.2 then p :: q :: rest else q :: insertDesc p rest

/-- Stable sort of scored entries by descending score; ties keep the
original insertion order. -/
def sortDesc : List Scored → List Scored
  | [] => []
  | p :: rest => insertDesc p (sortDesc rest)

/-- Modelled from the spec: similarity_search_with_score of the in-memory
vector store (a third-party dependency absent from src), as called in
rag.py line 61: score every stored entry against the query and return the k
entries with the highest score, in descending score order, ties broken by
insertion order.  The argument is the list of (segment, score) pairs the
query induces on the store, in insertion order. -/
def similarity_search_with_score (scored : List Scored) (k : Nat) : List Scored :=
  (sortDesc scored).take k

/-- rag.py lines 60-62, CustomGeminiRAG.search: request the top-1 entry and
keep it only when its score is strictly greater than 0.5. -/
def search (scored : List Scored) : List Segment :=
  ((similarity_search_with_score scored 1).filter
      (fun a => decide (mkRat 1 2 < a.2))).map Prod.fst

/-- Entry ordering by descending score. -/
def descRel (a b : Scored) : Prop := b.2 ≤ a.2

/-- rag.py lines 14-15: DEFAULT_PROMPT_TEMPLATE with the question and
context substituted.  The template reads "Answer the following question to a
user ", then the question, then a space, a newline and "with the following
context ", then the context. -/
def DEFAULT_PROMPT_fill (question context : Str) : Str :=
  "Answer the following question to a user ".data ++ question ++
    " \nwith the following context ".data ++ context

/-- rag.py lines 64-73, CustomGeminiRAG.ask: search for relevant segments,
join their texts with blank lines, fill the prompt template and return the
generation model's response unchanged.  The remote model llm.invoke is the
opaque function gen; the printed log line has no effect on the result. -/
def ask (gen : Str → Str) (scored : List Scored) (question : Str) : Str :=
  let rel_docs := search scored
  let context := List.intercalate "\n\n".data (rel_docs.map Segment.text)
  gen (DEFAULT_PROMPT_fill question context)

/-- Python's os.environ.get: the variable's value when the key is present,
None when it is absent (api.py line 21). -/
def os_environ_get (env : List (Str × Str)) (key : Str) : Option Str :=
  (env.find? (fun p => decide (p.1 = key))).map Prod.snd

/-- api.py lines 21-24: the startup credential guard.  Python evaluates
google_api_key == "" where google_api_key is os.environ.get(...): a present
value compares by string equality, while None == "" evaluates to False, so
an absent variable does not trigger the exit(1) branch. -/
def startup_key_check_aborts (env : List (Str × Str)) : Bool :=
  match os_environ_get env "GOOGLE_GEMINI_API_KEY".data with
  | some v => decide (v = [])
  | none => false

/-- rag.py line 13. -/
def BASE_URL : Str := "https://www.noobscience.in".data

/-- rag.py line 39, CustomGeminiRAG.__init__: the crawled hrefs from
position 1 onward are prefixed with the base URL; the first href returned by
parse_blogurls is dropped by the [1:] slice. -/
def init_urls (hrefs : List Str) : List Str :=
  (hrefs.drop 1).map (fun a => BASE_URL ++ a)

/-- A value stored in an SQLite column (db.py): NULL, an integer, or text. -/
inductive SqlValue
  | null
  | intVal (i : Int)
  | textVal (t : Str)
deriving DecidableEq, Repr

/-- The eight non-id columns of the patients table (db.py lines 25-35). -/
structure PatientFields where
  name : SqlValue
  age : SqlValue
  gender : SqlValue
  address : SqlValue
  identity : SqlValue
  phone : SqlValue
  description : SqlValue
  recommended_doctor : SqlValue
deriving DecidableEq, Repr

/-- One entry of patient_data["problems"] (db.py lines 93-100). -/
structure ProblemData where
  name : SqlValue
  duration : SqlValue
  description : SqlValue
deriving DecidableEq, Repr

/-- The patient_data dictionary passed to create_patient: the eight patient
columns, the problems list and the conditions list. -/
structure PatientData where
  fields : PatientFields
  problems : List ProblemData
  conditions : List SqlValue
deriving DecidableEq, Repr

/-- A row of the patients table: the AUTOINCREMENT id plus the eight
columns. -/
structure PatientRow where
  id : Nat
  fields : PatientFields
deriving DecidableEq, Repr

/-- A row of the problems table (db.py lines 41-49). -/
structure ProblemRow where
  id : Nat
  patient_id : Nat
  name : SqlValue
  duration : SqlValue
  description : SqlValue
deriving DecidableEq, Repr

/-- A row of the conditions table (db.py lines 54-59). -/
structure ConditionRow where
  id : Nat
  patient_id : Nat
  condition : SqlValue
deriving DecidableEq, Repr

/-- The committed database state: the three tables plus the AUTOINCREMENT
counters (the id the next inserted row of each table receives). -/
structure DB where
  patients : List PatientRow
  problems : List ProblemRow
  conditions : List ConditionRow
  nextPatientId : Nat
  nextProblemId : Nat
  nextConditionId : Nat
deriving DecidableEq, Repr

/-- The problem-loop inserts of create_patient (db.py lines 93-100), run on
the uncommitted connection state.  ctr numbers the INSERT statements of the
enclosing transaction; failAt is the oracle saying which statement, if any,
raises (modelling sqlite3 or KeyError exceptions).  Returns the updated
uncommitted state and the next statement number, or an error if a statement
raised. -/
def insertProblemRows (pid : Nat) : List ProblemData → DB → Nat → Option Nat →
    Except Unit (DB × Nat)
  | [], db, ctr, _ => Except.ok (db, ctr)
  | p :: rest, db, ctr, failAt =>
      if failAt = some ctr then Except.error ()
      else
        insertProblemRows pid rest
          { db with
              problems := db.problems ++
                [{ id := db.nextProblemId, patient_id := pid, name := p.name,
                   duration := p.duration, description := p.description }],
              nextProblemId := db.nextProblemId + 1 }
          (ctr + 1) failAt

/-- The condition-loop inserts of create_patient (db.py lines 103-110). -/
def insertConditionRows (pid : Nat) : List SqlValue → DB → Nat → Option Nat →
    Except Unit (DB × Nat)
  | [], db, ctr, _ => Except.ok (db, ctr)
  | c :: rest, db, ctr, failAt =>
      if failAt = some ctr then Except.error ()
      else
        insertConditionRows pid rest
          { db with
              conditions := db.conditions ++
                [{ id := db.nextConditionId, patient_id := pid, condition := c }],
              nextConditionId := db.nextConditionId + 1 }
          (ctr + 1) failAt

/-- db.py lines 64-117, PatientDatabase.create_patient: inside a try block,
insert the patient row (statement 0), then one problems row per problem
(statements 1..), then one conditions row per condition; on success commit
and return the new patient id (lastrowid of the patient insert), on any
exception roll the transaction back — leaving the committed state unchanged
— and return None. -/
def create_patient (db : DB) (pd : PatientData) (failAt : Option Nat) :
    DB × Option Nat :=
  let attempt : Except Unit (DB × Nat) :=
    if failAt = some 0 then Except.error ()
    else
      let pid := db.nextPatientId
      let db1 := { db with
        patients := db.patients ++ [{ id := pid, fields := pd.fields }],
        nextPatientId := pid + 1 }
      match insertProblemRows pid pd.problems db1 1 failAt with
      | Except.error _ => Except.error ()
      | Except.ok (db2, ctr) =>
          match insertConditionRows pid pd.conditions db2 ctr failAt with
          | Except.error _ => Except.error ()
          | Except.ok (db3, _) => Except.ok (db3, pid)
  match attempt with
  | Except.ok (db3, pid) => (db3, some pid)
  | Except.error _ => (db, none)

/-- The problems rows a fully successful create_patient appends, with ids
counting up from i. -/
def problemRowsFrom (pid : Nat) : Nat → List ProblemData → List ProblemRow
  | _, [] => []
  | i, p :: rest =>
      { id := i, patient_id := pid, name := p.name, duration := p.duration,
        description := p.description } :: problemRowsFrom pid (i + 1) rest

/-- The conditions rows a fully successful create_patient appends, with ids
counting up from i. -/
def conditionRowsFrom (pid : Nat) : Nat → List SqlValue → List ConditionRow
  | _, [] => []
  | i, c :: rest =>
      { id := i, patient_id := pid, condition := c } ::
        conditionRowsFrom pid (i + 1) rest

/-- The state create_patient commits when no statement raises. -/
def appliedDB (db : DB) (pd : PatientData) : DB :=
  { patients := db.patients ++ [{ id := db.nextPatientId, fields := pd.fields }],
    problems := db.problems ++ problemRowsFrom db.nextPatientId db.nextProblemId pd.problems,
    conditions := db.conditions ++
      conditionRowsFrom db.nextPatientId db.nextConditionId pd.conditions,
    nextPatientId := db.nextPatientId + 1,
    nextProblemId := db.nextProblemId + pd.problems.length,
    nextConditionId := db.nextConditionId + pd.conditions.length }

/-- The number of INSERT statements create_patient issues for pd. -/
def numInserts (pd : PatientData) : Nat :=
  1 + pd.problems.length + pd.conditions.length

/-- An empty database whose AUTOINCREMENT counters start at 1, as sqlite
creates it. -/
def sampleDB : DB := ⟨[], [], [], 1, 1, 1⟩

/-- A sample patient_data dictionary with one problem and one condition
(three INSERT statements in total). -/
def samplePatient : PatientData :=
  ⟨⟨SqlValue.textVal ['a'], SqlValue.intVal 30, SqlValue.null, SqlValue.null,
    SqlValue.null, SqlValue.null, SqlValue.null, SqlValue.null⟩,
   [⟨SqlValue.textVal ['f'], SqlValue.null, SqlValue.null⟩],
   [SqlValue.textVal ['c']]⟩

theorem chunkFuel_enough_zero (s : Str) (h : s.length ≤ 1000) :
    ∀ fuel, chunkFuel fuel s = [s] := by
  intro fuel
  cases fuel with
  | zero => rfl
  | succ n => simp [chunkFuel, h]

/-- A document no longer than the window yields one chunk: the whole text. -/
theorem chunkText_short (s : Str) (h : s.length ≤ 1000) : chunkText s = [s] :=
  chunkFuel_enough_zero s h s.length

theorem chunkFuel_head (fuel : Nat) (s : Str)
    (h : s.length ≤ 1000 + 800 * fuel) :
    (chunkFuel fuel s).head? = some (s.take 1000) := by
  cases fuel with
  | zero =>
      have h1000 : s.length ≤ 1000 := by omega
      simp [chunkFuel, List.take_of_length_le h1000]
  | succ n =>
      by_cases hle : s.length ≤ 1000
      · simp [chunkFuel, hle, List.take_of_length_le hle]
      · simp [chunkFuel, hle]

theorem chunkFuel_chain (fuel : Nat) : ∀ s : Str, s.length ≤ 1000 + 800 * fuel →
    List.Chain' overlapRel (chunkFuel fuel s) := by
  induction fuel with
  | zero =>
      intro s _
      exact List.chain'_singleton s
  | succ n ih =>
      intro s h
      by_cases hle : s.length ≤ 1000
      · simp only [chunkFuel, if_pos hle]
        exact List.chain'_singleton s
      · simp only [chunkFuel, if_neg hle]
        rw [List.chain'_cons']
        refine ⟨?_, ih (s.drop 800) (by simp [List.length_drop]; omega)⟩
        intro y hy
        have hh : (chunkFuel n (s.drop 800)).head? = some ((s.drop 800).take 1000) :=
          chunkFuel_head n (s.drop 800) (by simp [List.length_drop]; omega)
        rw [hh] at hy
        cases hy
        constructor
        · rw [List.drop_take, List.take_take]
          norm_num
        · rw [List.drop_take, List.length_take, List.length_drop]
          omega

theorem chunkText_chain (s : Str) : List.Chain' overlapRel (chunkText s) :=
  chunkFuel_chain s.length s (by omega)

theorem chunkFuel_map_drop_flatten (fuel : Nat) : ∀ s : Str,
    s.length ≤ 1000 + 800 * fuel →
    ((chunkFuel fuel s).map (List.drop 200)).flatten = s.drop 200 := by
  induction fuel with
  | zero =>
      intro s _
      simp [chunkFuel]
  | succ n ih =>
      intro s h
      by_cases hle : s.length ≤ 1000
      · simp [chunkFuel, hle]
      · simp only [chunkFuel, if_neg hle, List.map_cons, List.flatten_cons]
        rw [ih (s.drop 800) (by simp [List.length_drop]; omega)]
        rw [List.drop_take, List.drop_drop]
        norm_num
        have h2 : s.drop 1000 = (s.drop 200).drop 800 := by
          rw [List.drop_drop]
        rw [h2, List.take_append_drop]

theorem chunkFuel_dechunk (fuel : Nat) : ∀ s : Str,
    s.length ≤ 1000 + 800 * fuel → dechunk (chunkFuel fuel s) = s := by
  intro s h
  cases fuel with
  | zero =>
      simp [chunkFuel, dechunk]
  | succ n =>
      by_cases hle : s.length ≤ 1000
      · simp [chunkFuel, hle, dechunk]
      · simp only [chunkFuel, if_neg hle, dechunk]
        rw [chunkFuel_map_drop_flatten n (s.drop 800) (by simp [List.length_drop]; omega)]
        rw [List.drop_drop]
        have h3 : (800 : Nat) + 200 = 1000 := by norm_num
        rw [h3, List.take_append_drop]

theorem chunkFuel_mem_substring (fuel : Nat) : ∀ s c : Str,
    c ∈ chunkFuel fuel s → ∃ a b, c = (s.drop a).take b := by
  induction fuel with
  | zero =>
      intro s c hc
      simp only [chunkFuel, List.mem_singleton] at hc
      exact ⟨0, s.length, by simp [hc]⟩
  | succ n ih =>
      intro s c hc
      by_cases hle : s.length ≤ 1000
      · simp only [chunkFuel, if_pos hle, List.mem_singleton] at hc
        exact ⟨0, s.length, by simp [hc]⟩
      · simp only [chunkFuel, if_neg hle, List.mem_cons] at hc
        rcases hc with hc | hc
        · exact ⟨0, 1000, by simp [hc]⟩
        · obtain ⟨a, b, hab⟩ := ih (s.drop 800) c hc
          exact ⟨800 + a, b, by rw [hab, List.drop_drop]⟩

/-- C2: any two adjacent segments produced from the same document share
exactly 200 characters of overlap: the last 200 characters of the earlier
segment (everything past position 800) coincide with the first 200 characters
of the later one.  Under the spec's windowing this holds for every adjacent
pair, the final segment included, so the allowance made for the final segment
is never needed. -/
theorem claim_c2_adjacent_overlap (d : Document) (i : Nat)
    (h1 : i < (chunkDocument d).length) (h2 : i + 1 < (chunkDocument d).length) :
    (chunkDocument d)[i].text.drop 800 = (chunkDocument d)[i+1].text.take 200 ∧
    ((chunkDocument d)[i].text.drop 800).length = 200 := by
  have hc := chunkText_chain d.text
  rw [List.chain'_iff_get] at hc
  have hlen : (chunkDocument d).length = (chunkText d.text).length := by
    simp [chunkDocument]
  have hi : i < (chunkText d.text).length - 1 := by omega
  obtain ⟨heq, hlen200⟩ := hc i hi
  have e1 : (chunkDocument d)[i].text = (chunkText d.text).get ⟨i, by omega⟩ := by
    simp [chunkDocument]
  have e2 : (chunkDocument d)[i+1].text = (chunkText d.text).get ⟨i+1, by omega⟩ := by
    simp [chunkDocument]
  rw [e1, e2]
  exact ⟨heq, hlen200⟩

set_option maxRecDepth 100000 in
theorem claim_c2_adjacent_overlap_witness :
    (0 < (chunkDocument (Document.mk (List.replicate 1001 'a') ['u'])).length) ∧
    (0 + 1 < (chunkDocument (Document.mk (List.replicate 1001 'a') ['u'])).length) ∧
    ((chunkDocument (Document.mk (List.replicate 1001 'a') ['u']))[0].text.drop 800 =
       (chunkDocument (Document.mk (List.replicate 1001 'a') ['u']))[0+1].text.take 200 ∧
     ((chunkDocument (Document.mk (List.replicate 1001 'a') ['u']))[0].text.drop 800).length = 200) :=
  ⟨by decide, by decide,
    claim_c2_adjacent_overlap (Document.mk (List.replicate 1001 'a') ['u']) 0
      (by decide) (by decide)⟩

/-- C3: for every document, concatenating its segments' texts in order with
each segment's 200-character overlap region with its predecessor removed
reconstructs the document text exactly; and every segment's text is a
contiguous substring of its parent document's text (its source_url names that
parent). -/
theorem claim_c3_roundtrip (d : Document) :
    dechunk ((chunkDocument d).map Segment.text) = d.text ∧
    ∀ seg ∈ chunkDocument d,
      (∃ a b, seg.text = (d.text.drop a).take b) ∧ seg.source_url = d.source_url := by
  constructor
  · have hmap : (chunkDocument d).map Segment.text = chunkText d.text := by
      rw [chunkDocument, List.map_map]
      exact List.map_id (chunkText d.text)
    rw [hmap]
    exact chunkFuel_dechunk d.text.length d.text (by omega)
  · intro seg hseg
    simp only [chunkDocument, List.mem_map] at hseg
    obtain ⟨c, hc, rfl⟩ := hseg
    exact ⟨chunkFuel_mem_substring d.text.length d.text c hc, rfl⟩

/-- C4: a document whose text is shorter than 1000 characters yields exactly
one segment, whose text is the whole document text (and which carries the
document's source_url). -/
theorem claim_c4_short_document (d : Document) (h : d.text.length < 1000) :
    chunkDocument d = [{ text := d.text, source_url := d.source_url }] := by
  simp [chunkDocument, chunkText_short d.text (Nat.le_of_lt h)]

theorem claim_c4_short_document_witness :
    (Document.mk "hi there".data "u".data).text.length < 1000 ∧
    chunkDocument (Document.mk "hi there".data "u".data) =
      [Segment.mk "hi there".data "u".data] :=
  ⟨by decide, claim_c4_short_document (Document.mk "hi there".data "u".data) (by decide)⟩

theorem insertDesc_perm (p : Scored) (l : List Scored) :
    List.Perm (insertDesc p l) (p :: l) := by
  induction l with
  | nil => exact List.Perm.refl _
  | cons q rest ih =>
      by_cases hq : q.2 ≤ p.2
      · simp [insertDesc, hq]
      · simp only [insertDesc, if_neg hq]
        exact (ih.cons q).trans (List.Perm.swap p q rest)

theorem sortDesc_perm (l : List Scored) : List.Perm (sortDesc l) l := by
  induction l with
  | nil => exact List.Perm.refl _
  | cons p rest ih =>
      exact (insertDesc_perm p (sortDesc rest)).trans (ih.cons p)

theorem insertDesc_pairwise (p : Scored) (l : List Scored)
    (h : l.Pairwise descRel) : (insertDesc p l).Pairwise descRel := by
  induction l with
  | nil => simp [insertDesc, descRel]
  | cons q rest ih =>
      rcases List.pairwise_cons.mp h with ⟨hq, hrest⟩
      by_cases hqp : q.2 ≤ p.2
      · simp only [insertDesc, if_pos hqp]
        refine List.pairwise_cons.mpr ⟨?_, h⟩
        intro b hb
        rcases List.mem_cons.mp hb with rfl | hb
        · exact hqp
        · exact le_trans (hq b hb) hqp
      · simp only [insertDesc, if_neg hqp]
        refine List.pairwise_cons.mpr ⟨?_, ih hrest⟩
        intro b hb
        have hb' : b ∈ p :: rest := (insertDesc_perm p rest).mem_iff.mp hb
        rcases List.mem_cons.mp hb' with rfl | hb'
        · exact le_of_lt (lt_of_not_le hqp)
        · exact hq b hb'

theorem sortDesc_pairwise (l : List Scored) : (sortDesc l).Pairwise descRel := by
  induction l with
  | nil => simp [sortDesc]
  | cons p rest ih => exact insertDesc_pairwise p (sortDesc rest) ih

/-- C5: the store's search returns at most k entries, and the scores of the
returned entries are non-increasing in the returned order. -/
theorem claim_c5_search_topk (scored : List Scored) (k : Nat) :
    (similarity_search_with_score scored k).length ≤ k ∧
    (similarity_search_with_score scored k).Pairwise
      (fun a b => b.2 ≤ a.2) := by
  refine ⟨?_, ?_⟩
  · simp only [similarity_search_with_score]
    exact (sortDesc scored).length_take_le k
  · exact ((sortDesc_pairwise scored).sublist ((sortDesc scored).take_sublist k))

/-- C1: with k = 1 the filtered search is empty exactly when the top-1 score
is at most 0.5; otherwise it returns exactly the single top-scoring entry,
whose score bounds every stored entry's score. -/
theorem claim_c1_retrieve_threshold (scored : List Scored) (e : Scored)
    (h : (similarity_search_with_score scored 1).head? = some e) :
    (search scored = [] ↔ e.2 ≤ mkRat 1 2) ∧
    (mkRat 1 2 < e.2 → search scored = [e.1]) ∧
    (∀ p ∈ scored, p.2 ≤ e.2) := by
  simp only [similarity_search_with_score] at h
  obtain ⟨t, ht⟩ : ∃ t, sortDesc scored = e :: t := by
    cases hs : sortDesc scored with
    | nil =>
        rw [hs] at h
        have h0 : List.take 1 ([] : List Scored) = [] := rfl
        rw [h0] at h
        exact absurd h (by simp)
    | cons a t =>
        rw [hs] at h
        have h1 : List.take 1 (a :: t) = [a] := rfl
        rw [h1] at h
        simp only [List.head?_cons, Option.some.injEq] at h
        exact ⟨t, by rw [h]⟩
  have hsearch : search scored =
      ([e].filter (fun a => decide (mkRat 1 2 < a.2))).map Prod.fst := by
    rw [search, similarity_search_with_score, ht]
    rfl
  have hpos : mkRat 1 2 < e.2 → search scored = [e.1] := by
    intro hlt
    have hd : decide (mkRat 1 2 < e.2) = true := decide_eq_true hlt
    rw [hsearch, List.filter_cons_of_pos (p := fun a : Scored => decide (mkRat 1 2 < a.2)) hd]
    rfl
  have hneg : ¬(mkRat 1 2 < e.2) → search scored = [] := by
    intro hlt
    have hd : ¬ decide (mkRat 1 2 < e.2) = true := by
      simpa using hlt
    rw [hsearch, List.filter_cons_of_neg (p := fun a : Scored => decide (mkRat 1 2 < a.2)) hd]
    rfl
  refine ⟨?_, hpos, ?_⟩
  · constructor
    · intro hempty
      rcases le_or_lt e.2 (mkRat 1 2) with hle | hgt
      · exact hle
      · rw [hpos hgt] at hempty
        simp at hempty
    · intro hle
      exact hneg (not_lt.mpr hle)
  · intro p hp
    have hmem : p ∈ sortDesc scored := (sortDesc_perm scored).mem_iff.mpr hp
    rw [ht] at hmem
    rcases List.mem_cons.mp hmem with rfl | hmem
    · exact le_refl _
    · have hpw := sortDesc_pairwise scored
      rw [ht] at hpw
      exact (List.pairwise_cons.mp hpw).1 p hmem

theorem claim_c1_retrieve_threshold_witness :
    (similarity_search_with_score [(Segment.mk ['p'] ['u'], mkRat 3 4)] 1).head? =
        some (Segment.mk ['p'] ['u'], mkRat 3 4) ∧
    ((search [(Segment.mk ['p'] ['u'], mkRat 3 4)] = [] ↔ mkRat 3 4 ≤ mkRat 1 2) ∧
     (mkRat 1 2 < mkRat 3 4 →
        search [(Segment.mk ['p'] ['u'], mkRat 3 4)] = [Segment.mk ['p'] ['u']]) ∧
     (∀ p ∈ [(Segment.mk ['p'] ['u'], mkRat 3 4)], p.2 ≤ mkRat 3 4)) :=
  ⟨rfl, claim_c1_retrieve_threshold [(Segment.mk ['p'] ['u'], mkRat 3 4)]
    (Segment.mk ['p'] ['u'], mkRat 3 4) rfl⟩

theorem intersperse_flatten (sep : Str) (xs : List Str) : ∀ x : Str,
    (List.intersperse sep (x :: xs)).flatten = x ++ (xs.map (fun y => sep ++ y)).flatten := by
  induction xs with
  | nil => intro x; simp
  | cons y t ih =>
      intro x
      have hstep : List.intersperse sep (x :: y :: t) =
          x :: sep :: List.intersperse sep (y :: t) := rfl
      rw [hstep, List.flatten_cons, List.flatten_cons, ih y]
      simp [List.append_assoc]

/-- C6: ask concatenates the retrieved segments' texts with blank-line
separators in retrieval order (the empty string when nothing is retrieved),
substitutes the question and that context block into the fixed template, and
returns the generation model's output on the filled prompt verbatim. -/
theorem claim_c6_ask_pipeline (gen : Str → Str) (scored : List Scored)
    (question : Str) :
    (search scored = [] →
        ask gen scored question = gen (DEFAULT_PROMPT_fill question [])) ∧
    (∀ s1 rest, search scored = s1 :: rest →
        ask gen scored question = gen (DEFAULT_PROMPT_fill question
          (s1.text ++ (rest.map (fun s => "\n\n".data ++ s.text)).flatten))) := by
  constructor
  · intro hempty
    rw [ask, hempty]
    rfl
  · intro s1 rest hcons
    rw [ask, hcons]
    have h1 : List.intercalate "\n\n".data ((s1 :: rest).map Segment.text) =
        s1.text ++ ((rest.map Segment.text).map (fun y => "\n\n".data ++ y)).flatten := by
      rw [List.map_cons, List.intercalate]
      exact intersperse_flatten "\n\n".data (rest.map Segment.text) s1.text
    simp only [h1, List.map_map]
    rfl

theorem claim_c6_ask_pipeline_witness :
    (search [(Segment.mk ['p'] ['u'], mkRat 3 4)] = [Segment.mk ['p'] ['u']]) ∧
    ask id [(Segment.mk ['p'] ['u'], mkRat 3 4)] "q".data =
      id (DEFAULT_PROMPT_fill "q".data
        ((Segment.mk ['p'] ['u']).text ++
          (([] : List Segment).map (fun s => "\n\n".data ++ s.text)).flatten)) :=
  ⟨by decide,
    (claim_c6_ask_pipeline id [(Segment.mk ['p'] ['u'], mkRat 3 4)] "q".data).2
      (Segment.mk ['p'] ['u']) [] (by decide)⟩

/-- C7: when retrieval comes back empty, ask still returns the model's
response to the prompt filled with the empty context: a plain string, not an
error. -/
theorem claim_c7_ask_empty_context (gen : Str → Str) (scored : List Scored)
    (question : Str) (h : search scored = []) :
    ask gen scored question = gen (DEFAULT_PROMPT_fill question []) := by
  rw [ask, h]
  rfl

theorem claim_c7_ask_empty_context_witness :
    (search [] = []) ∧
    ask id [] "q".data = id (DEFAULT_PROMPT_fill "q".data []) :=
  ⟨rfl, claim_c7_ask_empty_context id [] "q".data rfl⟩

/-- C8 failing input: with the credential variable absent from the
environment, the guard that is supposed to abort the service evaluates
None == "" to False and does not abort; it only aborts when the variable is
present but set to the empty string. -/
theorem claim_c8_missing_credential_not_aborted :
    startup_key_check_aborts [] = false ∧
    startup_key_check_aborts [("GOOGLE_GEMINI_API_KEY".data, [])] = true ∧
    startup_key_check_aborts [("OTHER_VAR".data, "x".data)] = false :=
  ⟨rfl, by decide, by decide⟩

/-- C10: the pipeline indexes only the crawled hrefs from position 1 onward,
each prefixed with the base URL; the first href never contributes a fetched
URL, so (absent a duplicate link) its page is never indexed. -/
theorem claim_c10_first_url_discarded (h : Str) (t : List Str)
    (hnd : h ∉ t) :
    init_urls (h :: t) = t.map (fun a => BASE_URL ++ a) ∧
    BASE_URL ++ h ∉ init_urls (h :: t) := by
  constructor
  · rfl
  · intro hmem
    rw [init_urls] at hmem
    simp only [List.drop_succ_cons, List.drop_zero, List.mem_map] at hmem
    obtain ⟨a, ha, heq⟩ := hmem
    have : a = h := List.append_cancel_left heq
    exact hnd (this ▸ ha)

theorem claim_c10_first_url_discarded_witness :
    ("/blog/a".data ∉ ["/blog/b".data]) ∧
    (init_urls ["/blog/a".data, "/blog/b".data] =
        ["/blog/b".data].map (fun a => BASE_URL ++ a) ∧
     BASE_URL ++ "/blog/a".data ∉ init_urls ["/blog/a".data, "/blog/b".data]) :=
  ⟨by decide,
    claim_c10_first_url_discarded "/blog/a".data ["/blog/b".data] (by decide)⟩

theorem insertProblemRows_ok (pid : Nat) (ps : List ProblemData) :
    ∀ (db : DB) (ctr : Nat) (failAt : Option Nat),
    (∀ i, failAt = some i → ctr + ps.length ≤ i) →
    insertProblemRows pid ps db ctr failAt =
      Except.ok
        ({ db with
            problems := db.problems ++ problemRowsFrom pid db.nextProblemId ps,
            nextProblemId := db.nextProblemId + ps.length }, ctr + ps.length) := by
  induction ps with
  | nil =>
      intro db ctr failAt _
      simp [insertProblemRows, problemRowsFrom]
  | cons p rest ih =>
      intro db ctr failAt h
      have hne : ¬ failAt = some ctr := by
        intro hc
        have := h ctr hc
        simp at this
      rw [insertProblemRows, if_neg hne]
      rw [ih _ (ctr + 1) failAt (fun i hi => by have := h i hi; simp only [List.length_cons] at this; omega)]
      simp only [problemRowsFrom, List.length_cons, Except.ok.injEq, Prod.mk.injEq]
      refine ⟨?_, by omega⟩
      simp [List.append_assoc, List.length_cons]
      omega

theorem insertConditionRows_ok (pid : Nat) (cs : List SqlValue) :
    ∀ (db : DB) (ctr : Nat) (failAt : Option Nat),
    (∀ i, failAt = some i → ctr + cs.length ≤ i) →
    insertConditionRows pid cs db ctr failAt =
      Except.ok
        ({ db with
            conditions := db.conditions ++
              conditionRowsFrom pid db.nextConditionId cs,
            nextConditionId := db.nextConditionId + cs.length }, ctr + cs.length) := by
  induction cs with
  | nil =>
      intro db ctr failAt _
      simp [insertConditionRows, conditionRowsFrom]
  | cons c rest ih =>
      intro db ctr failAt h
      have hne : ¬ failAt = some ctr := by
        intro hc
        have := h ctr hc
        simp at this
      rw [insertConditionRows, if_neg hne]
      rw [ih _ (ctr + 1) failAt (fun i hi => by have := h i hi; simp only [List.length_cons] at this; omega)]
      simp only [conditionRowsFrom, List.length_cons, Except.ok.injEq, Prod.mk.injEq]
      refine ⟨?_, by omega⟩
      simp [List.append_assoc, List.length_cons]
      omega

theorem insertProblemRows_err (pid : Nat) (ps : List ProblemData) :
    ∀ (db : DB) (ctr : Nat) (failAt : Option Nat) (i : Nat),
    failAt = some i → ctr ≤ i → i < ctr + ps.length →
    insertProblemRows pid ps db ctr failAt = Except.error () := by
  induction ps with
  | nil =>
      intro db ctr failAt i _ hge hlt
      simp at hlt
      omega
  | cons p rest ih =>
      intro db ctr failAt i hfa hge hlt
      by_cases hi : i = ctr
      · rw [insertProblemRows, if_pos (by rw [hfa, hi])]
      · have hne : ¬ failAt = some ctr := by
          rw [hfa]
          simp
          omega
        rw [insertProblemRows, if_neg hne]
        exact ih _ (ctr + 1) failAt i hfa (by omega)
          (by simp at hlt; omega)

theorem insertConditionRows_err (pid : Nat) (cs : List SqlValue) :
    ∀ (db : DB) (ctr : Nat) (failAt : Option Nat) (i : Nat),
    failAt = some i → ctr ≤ i → i < ctr + cs.length →
    insertConditionRows pid cs db ctr failAt = Except.error () := by
  induction cs with
  | nil =>
      intro db ctr failAt i _ hge hlt
      simp at hlt
      omega
  | cons c rest ih =>
      intro db ctr failAt i hfa hge hlt
      by_cases hi : i = ctr
      · rw [insertConditionRows, if_pos (by rw [hfa, hi])]
      · have hne : ¬ failAt = some ctr := by
          rw [hfa]
          simp
          omega
        rw [insertConditionRows, if_neg hne]
        exact ih _ (ctr + 1) failAt i hfa (by omega)
          (by simp at hlt; omega)

/-- C9: create_patient is atomic.  If the exception oracle hits any of the
INSERT statements the transaction issues, the function returns the committed
state unchanged together with None; if it hits none of them, the function
returns the state with the patient row, its problems rows and its conditions
rows appended, together with the new patient's id. -/
theorem claim_c9_create_patient_atomic (db : DB) (pd : PatientData)
    (failAt : Option Nat) :
    (∀ i, failAt = some i → i < numInserts pd →
        create_patient db pd failAt = (db, none)) ∧
    ((∀ i, failAt = some i → numInserts pd ≤ i) →
        create_patient db pd failAt = (appliedDB db pd, some db.nextPatientId)) := by
  have hnum : numInserts pd = 1 + pd.problems.length + pd.conditions.length := rfl
  constructor
  · intro i hfa hi
    by_cases h0 : i = 0
    · have hc : failAt = some 0 := by rw [hfa, h0]
      simp [create_patient, hc]
    · have hc : ¬ failAt = some 0 := by
        rw [hfa]
        simp only [Option.some.injEq]
        exact h0
      by_cases hp : i < 1 + pd.problems.length
      · have h1 := fun d => insertProblemRows_err db.nextPatientId pd.problems
          d 1 failAt i hfa (by omega) (by omega)
        simp [create_patient, hc, h1]
      · have hple : 1 + pd.problems.length ≤ i := Nat.not_lt.mp hp
        have hyp1 : ∀ j, failAt = some j → 1 + pd.problems.length ≤ j := by
          intro j hj
          rw [hfa] at hj
          have := Option.some.inj hj
          omega
        have h1 := fun d =>
          insertProblemRows_ok db.nextPatientId pd.problems d 1 failAt hyp1
        have h2 := fun d => insertConditionRows_err db.nextPatientId pd.conditions
          d (1 + pd.problems.length) failAt i hfa hple
          (by rw [hnum] at hi; omega)
        simp [create_patient, hc, h1, h2]
  · intro hok
    have hc : ¬ failAt = some 0 := by
      intro hcc
      have := hok 0 hcc
      rw [hnum] at this
      omega
    have hyp1 : ∀ j, failAt = some j → 1 + pd.problems.length ≤ j := by
      intro j hj
      have := hok j hj
      rw [hnum] at this
      omega
    have hyp2 : ∀ j, failAt = some j →
        (1 + pd.problems.length) + pd.conditions.length ≤ j := by
      intro j hj
      have := hok j hj
      rw [hnum] at this
      omega
    have h1 := fun d =>
      insertProblemRows_ok db.nextPatientId pd.problems d 1 failAt hyp1
    have h2 := fun d =>
      insertConditionRows_ok db.nextPatientId pd.conditions d
        (1 + pd.problems.length) failAt hyp2
    simp [create_patient, hc, h1, h2, appliedDB]

theorem claim_c9_create_patient_atomic_witness :
    (1 < numInserts samplePatient) ∧
    create_patient sampleDB samplePatient (some 1) = (sampleDB, none) ∧
    create_patient sampleDB samplePatient none =
      (appliedDB sampleDB samplePatient, some sampleDB.nextPatientId) :=
  ⟨by decide,
   (claim_c9_create_patient_atomic sampleDB samplePatient (some 1)).1 1 rfl (by decide),
   (claim_c9_create_patient_atomic sampleDB samplePatient none).2
     (by intro i hi; simp at hi)⟩

